import Mathlib

/-!
Verification of the persistent keyed storage layer and CRUD handlers of the
`icp_rust_boilerplate_backend` canister
(`src/icp_rust_boilerplate_backend/src/lib.rs`).

The Rust code keeps its state in three thread-local singletons: an id counter
(`ID_COUNTER : Cell<u64, Memory>`, region 0) and a durable ordered map
(`STORAGE : StableBTreeMap<u64, Voting, Memory>`, region 1).  We embed this
state as an explicit `StorageState` value threaded through every handler, and
the ambient time `ic_cdk::api::time()` as an explicit `now` argument.

Machine integers are embedded as `Nat` with explicit reductions modulo `2 ^ 64`
(`u64`) and `2 ^ 32` (`u32`) at the operations where overflow can occur.
-/

/-- The set of `u64` values. -/
def U64 : Nat := 2 ^ 64

/-- The set of `u32` values. -/
def U32 : Nat := 2 ^ 32

/-- Rust struct `Voting` (lib.rs lines 13-21).  `votes : HashMap<String, u32>`
is embedded as an association list with distinct keys, built and updated only
through `hmInsert` / `incrVote` below, which mirror `HashMap::insert` and
`HashMap::get_mut`. -/
structure Voting where
  id : Nat
  question : String
  options : List String
  votes : List (String × Nat)
  created_at : Nat
  updated_at : Option Nat
deriving DecidableEq, Repr

/-- Rust struct `VotingPayload` (lib.rs lines 56-60). -/
structure VotingPayload where
  question : String
  options : List String
deriving DecidableEq, Repr

/-- Rust enum `Error` (lib.rs lines 193-196); `NotFound` is its only variant. -/
inductive Error where
  | NotFound (msg : String)
deriving DecidableEq, Repr

/-- The ASCII apostrophe (codepoint 39), used in the error messages that the
Rust handlers build with string formatting. -/
def squote : String := String.mk [Char.ofNat 39]

/-- Model of `HashMap::insert(k, v)`: replaces the value of an existing key, otherwise
adds the binding (modelled at the end of the list). -/
def hmInsert : List (String × Nat) → String → Nat → List (String × Nat)
  | [], k, v => [(k, v)]
  | (k', v') :: rest, k, v =>
    if k' = k then (k, v) :: rest else (k', v') :: hmInsert rest k v

/-- Model of `HashMap::get(&k)`: the binding for `k`, if any. -/
def hmLookup : List (String × Nat) → String → Option Nat
  | [], _ => none
  | (k', v') :: rest, k => if k' = k then some v' else hmLookup rest k

/-- The loop `for option in &payload.options { votes.insert(option, 0); }`
of `create_vote` (lib.rs 87-91) and `update_vote` (lib.rs 123-127). -/
def buildVotes (options : List String) : List (String × Nat) :=
  options.foldl (fun m o => hmInsert m o 0) []

/-- Model of `if let Some(vote_count) = vote.votes.get_mut(&option) { *vote_count += 1; }`
(lib.rs 171-173): increments the count bound to `option`, if any, reducing
modulo `2 ^ 32` since the count is a `u32`; absent keys are left alone. -/
def incrVote : List (String × Nat) → String → List (String × Nat)
  | [], _ => []
  | (k', v) :: rest, k =>
    if k' = k then (k', (v + 1) % U32) :: rest else (k', v) :: incrVote rest k

/-- Model of `StableBTreeMap::get(&k)`: the first binding of `k`, if any. -/
def mapGet : List (Nat × Voting) → Nat → Option Voting
  | [], _ => none
  | (k', v') :: rest, k => if k' = k then some v' else mapGet rest k

/-- Model of `StableBTreeMap::insert(k, v)`: upsert keeping the list sorted by key. -/
def mapInsert : List (Nat × Voting) → Nat → Voting → List (Nat × Voting)
  | [], k, v => [(k, v)]
  | (k', v') :: rest, k, v =>
    if k < k' then (k, v) :: (k', v') :: rest
    else if k' = k then (k, v) :: rest
    else (k', v') :: mapInsert rest k v

/-- Model of `StableBTreeMap::remove(&k)`: deletes the binding of `k` if present. -/
def mapRemove : List (Nat × Voting) → Nat → List (Nat × Voting)
  | [], _ => []
  | (k', v') :: rest, k =>
    if k' = k then mapRemove rest k else (k', v') :: mapRemove rest k

/-- The canister state: the `ID_COUNTER` cell (region 0, initialized to 0) and
the `STORAGE` stable map (region 1). -/
structure StorageState where
  counter : Nat
  storage : List (Nat × Voting)
deriving DecidableEq, Repr

/-- The state after canister installation: counter 0, empty map. -/
def initState : StorageState := ⟨0, []⟩

/-- Query `get_vote(id)` (lib.rs 63-71).  A query mutates nothing, so the
state component of the result is the input state. -/
def get_vote (id : Nat) (s : StorageState) : Except Error Voting × StorageState :=
  match mapGet s.storage id with
  | some message => (.ok message, s)
  | none => (.error (.NotFound ("a vote with id=" ++ toString id ++ " not found")), s)

/-- Helper `_get_vote(id)` (lib.rs 73-75). -/
def _get_vote (id : Nat) (s : StorageState) : Option Voting :=
  mapGet s.storage id

/-- Helper `do_insert(vote)` (lib.rs 107-110). -/
def do_insert (vote : Voting) (s : StorageState) : StorageState :=
  { s with storage := mapInsert s.storage vote.id vote }

/-- Update call `create_vote(payload)` (lib.rs 78-104).

The id is obtained from `ID_COUNTER.with(|c| { let current_value = *c.borrow().get();
c.borrow_mut().set(current_value + 1) }).expect(..)`.  Modelled from the spec:
`ic_stable_structures::Cell::set` is not part of this repository; per the
spec's contract `set(new_value: u64) -> Result<old_value, Error>` it stores the
new value and returns the previous one, and fails only on a write fault (fatal,
not modelled).  Hence the freshly created record's id is the previous counter
value `current_value`, while `current_value + 1` (a `u64` sum, reduced modulo
`2 ^ 64`) is written back to the cell. -/
def create_vote (now : Nat) (payload : VotingPayload) (s : StorageState) :
    Option Voting × StorageState :=
  let current_value := s.counter
  let id := current_value
  let votes := buildVotes payload.options
  let vote : Voting :=
    { id := id, question := payload.question, options := payload.options,
      votes := votes, created_at := now, updated_at := none }
  (some vote, do_insert vote { s with counter := (current_value + 1) % U64 })

/-- Update call `update_vote(id, payload)` (lib.rs 113-143). -/
def update_vote (now : Nat) (id : Nat) (payload : VotingPayload) (s : StorageState) :
    Except Error Voting × StorageState :=
  match mapGet s.storage id with
  | some vote =>
    let vote' : Voting :=
      { vote with question := payload.question, options := payload.options,
                  votes := buildVotes payload.options, updated_at := some now }
    (.ok vote', do_insert vote' s)
  | none =>
    (.error (.NotFound ("couldn" ++ squote ++ "t update a vote with id=" ++ toString id
        ++ ". vote not found")), s)

/-- Update call `delete_vote(id)` (lib.rs 146-157).  `remove` returns the
removed value when the key was present and nothing otherwise. -/
def delete_vote (id : Nat) (s : StorageState) : Except Error Voting × StorageState :=
  match mapGet s.storage id with
  | some vote => (.ok vote, { s with storage := mapRemove s.storage id })
  | none =>
    (.error (.NotFound ("couldn" ++ squote ++ "t delete a vote with id=" ++ toString id
        ++ ". vote not found.")), s)

/-- Update call `cast_vote(id, option)` (lib.rs 160-191). -/
def cast_vote (now : Nat) (id : Nat) (option : String) (s : StorageState) :
    Except Error Voting × StorageState :=
  match mapGet s.storage id with
  | some vote =>
    if vote.options.contains option then
      let vote' : Voting :=
        { vote with votes := incrVote vote.votes option, updated_at := some now }
      (.ok vote', do_insert vote' s)
    else
      (.error (.NotFound ("The option " ++ squote ++ option ++ squote
          ++ " is not found for this vote.")), s)
  | none =>
    (.error (.NotFound ("couldn" ++ squote ++ "t cast a vote with id=" ++ toString id
        ++ ". vote not found")), s)

/-- Projection of a handler result: the field `f` of the returned record when
the call succeeded, `none` when it returned an error. -/
def okField {α : Type} (r : Except Error Voting × StorageState) (f : Voting → α) : Option α :=
  match r.1 with
  | .ok v => some (f v)
  | .error _ => none

/-- A sequence of `create_vote` calls: each list entry is the call time and the
payload; returns the ids of the created records (in call order) and the final
state. -/
def createSeq : List (Nat × VotingPayload) → StorageState → List Nat × StorageState
  | [], s => ([], s)
  | (now, p) :: rest, s =>
    let r := create_vote now p s
    let t := createSeq rest r.2
    ((r.1.elim [] fun v => [v.id]) ++ t.1, t.2)

/-- The states reachable from the freshly installed canister by any sequence of
entry-point calls (`get_vote` leaves the state unchanged, so it is omitted). -/
inductive Reachable : StorageState → Prop
  | init : Reachable initState
  | create (now : Nat) (p : VotingPayload) {s : StorageState} :
      Reachable s → Reachable (create_vote now p s).2
  | update (now id : Nat) (p : VotingPayload) {s : StorageState} :
      Reachable s → Reachable (update_vote now id p s).2
  | cast (now id : Nat) (opt : String) {s : StorageState} :
      Reachable s → Reachable (cast_vote now id opt s).2
  | delete (id : Nat) {s : StorageState} :
      Reachable s → Reachable (delete_vote id s).2

/-- Every stored record has, as keys of its votes map, exactly the labels of
its options list. -/
def KeysInv (s : StorageState) : Prop :=
  ∀ k v, mapGet s.storage k = some v →
    ∀ lbl, (hmLookup v.votes lbl).isSome = true ↔ lbl ∈ v.options

/-! ### The record codec

`impl Storable for Voting` (lib.rs 24-32) delegates to `candid::Encode!` /
`candid::Decode!`.  The candid library is not part of this repository, so its
serialization of this one concrete record type is modelled here at the byte
level: fixed-width integers are little-endian byte sequences, a text is its
LEB128-encoded length followed by its characters, a `vec` is its LEB128-encoded
element count followed by the encoded elements, a `HashMap<String, u32>` is the
`vec` of its (key, value) entries, and `opt nat64` is a presence byte followed
by the value.  Bytes are `Nat`s; `from_bytes` is `Option`-valued since the Rust
`Decode!(..).unwrap()` aborts on input it cannot parse. -/

/-- Fixed-width little-endian encoding: the `k` bytes of `n` (for `nat64`, `nat32`). -/
def encFixed : Nat → Nat → List Nat
  | 0, _ => []
  | k + 1, n => n % 256 :: encFixed k (n / 256)

/-- Decodes a `k`-byte little-endian integer, returning it with the remaining
bytes. -/
def decFixed : Nat → List Nat → Option (Nat × List Nat)
  | 0, bs => some (0, bs)
  | _ + 1, [] => none
  | k + 1, b :: bs => (decFixed k bs).map fun r => (b + 256 * r.1, r.2)

/-- Unsigned LEB128 encoding, structurally recursive on a fuel argument that
`leb` instantiates with the value itself (the quotient chain `n / 128 / ...`
reaches 0 after at most `n` steps, so the fuel never runs out for `n ≤ fuel`). -/
def lebAux : Nat → Nat → List Nat
  | 0, n => [n % 128]
  | fuel + 1, n =>
    if n < 128 then [n] else (n % 128 + 128) :: lebAux fuel (n / 128)

/-- Unsigned LEB128 encoding, used for text lengths and vector counts. -/
def leb (n : Nat) : List Nat := lebAux n n

/-- Unsigned LEB128 decoding. -/
def dleb : List Nat → Option (Nat × List Nat)
  | [] => none
  | b :: bs =>
    if b < 128 then some (b, bs)
    else (dleb bs).map fun r => (b - 128 + 128 * r.1, r.2)

/-- Encoding of a text: LEB128 length, then the characters. -/
def encText (s : String) : List Nat :=
  leb s.data.length ++ s.data.map Char.toNat

/-- Decodes `k` characters. -/
def decChars : Nat → List Nat → Option (List Char × List Nat)
  | 0, bs => some ([], bs)
  | _ + 1, [] => none
  | k + 1, b :: bs => (decChars k bs).map fun r => (Char.ofNat b :: r.1, r.2)

/-- Decodes a text. -/
def decText (bs : List Nat) : Option (String × List Nat) :=
  match dleb bs with
  | some (n, rest) => (decChars n rest).map fun r => (String.mk r.1, r.2)
  | none => none

/-- Encoding of the elements of `vec text`. -/
def encTexts : List String → List Nat
  | [] => []
  | s :: rest => encText s ++ encTexts rest

/-- Encoding of `vec text`: LEB128 count, then the elements. -/
def encTextList (xs : List String) : List Nat :=
  leb xs.length ++ encTexts xs

/-- Decodes `k` texts. -/
def decTexts : Nat → List Nat → Option (List String × List Nat)
  | 0, bs => some ([], bs)
  | k + 1, bs =>
    match decText bs with
    | some (s, rest) => (decTexts k rest).map fun r => (s :: r.1, r.2)
    | none => none

/-- Decodes a `vec text`. -/
def decTextList (bs : List Nat) : Option (List String × List Nat) :=
  match dleb bs with
  | some (n, rest) => decTexts n rest
  | none => none

/-- Encoding of the entries of the votes map: each entry is a text key followed
by a `nat32` count. -/
def encPairs : List (String × Nat) → List Nat
  | [] => []
  | (k, c) :: rest => encText k ++ (encFixed 4 c ++ encPairs rest)

/-- Encoding of the votes map: LEB128 entry count, then the entries. -/
def encPairList (l : List (String × Nat)) : List Nat :=
  leb l.length ++ encPairs l

/-- Decodes `k` votes-map entries. -/
def decPairs : Nat → List Nat → Option (List (String × Nat) × List Nat)
  | 0, bs => some ([], bs)
  | k + 1, bs =>
    match decText bs with
    | some (key, rest) =>
      match decFixed 4 rest with
      | some (c, rest') => (decPairs k rest').map fun r => ((key, c) :: r.1, r.2)
      | none => none
    | none => none

/-- Decodes the votes map. -/
def decPairList (bs : List Nat) : Option (List (String × Nat) × List Nat) :=
  match dleb bs with
  | some (n, rest) => decPairs n rest
  | none => none

/-- Encoding of `opt nat64`: a presence byte, then the value when present. -/
def encOptNat64 : Option Nat → List Nat
  | none => [0]
  | some t => 1 :: encFixed 8 t

/-- Decodes an `opt nat64`. -/
def decOptNat64 : List Nat → Option (Option Nat × List Nat)
  | [] => none
  | b :: bs =>
    if b = 0 then some (none, bs)
    else if b = 1 then (decFixed 8 bs).map fun r => (some r.1, r.2)
    else none

/-- Model of `Storable::to_bytes` for `Voting` (lib.rs 25-27): the concatenated field
encodings, in declaration order. -/
def Voting.to_bytes (v : Voting) : List Nat :=
  encFixed 8 v.id ++ (encText v.question ++ (encTextList v.options ++
    (encPairList v.votes ++ (encFixed 8 v.created_at ++ encOptNat64 v.updated_at))))

/-- Model of `Storable::from_bytes` for `Voting` (lib.rs 29-31): decodes the six fields
and requires the input to be consumed exactly; `none` models the `unwrap`
panic on malformed bytes. -/
def Voting.from_bytes (bs : List Nat) : Option Voting :=
  (decFixed 8 bs).bind fun r0 =>
  (decText r0.2).bind fun r1 =>
  (decTextList r1.2).bind fun r2 =>
  (decPairList r2.2).bind fun r3 =>
  (decFixed 8 r3.2).bind fun r4 =>
  (decOptNat64 r4.2).bind fun r5 =>
  if r5.2 = [] then some ⟨r0.1, r1.1, r2.1, r3.1, r4.1, r5.1⟩ else none

/-- Well-formedness of a record: every numeric field fits its Rust type
(`id`, `created_at`, `updated_at` are `u64`; the vote counts are `u32`). -/
def Voting.WF (v : Voting) : Prop :=
  v.id < U64 ∧ v.created_at < U64 ∧ (∀ t ∈ v.updated_at, t < U64) ∧
    ∀ p ∈ v.votes, p.2 < U32

/-! ### Example values used to instantiate the theorems -/

/-- The payload of the spec's creation scenario. -/
def exPayload : VotingPayload := ⟨"Pick one", ["A", "B"]⟩

/-- The record created from `exPayload` at time 100 on a fresh canister. -/
def exVote : Voting := ⟨0, "Pick one", ["A", "B"], [("A", 0), ("B", 0)], 100, none⟩

/-- The state after that single create. -/
def exState : StorageState := ⟨1, [(0, exVote)]⟩

/-- A well-formed record whose `votes` count for `A` is the largest `u32`. -/
def wrapVote : Voting := ⟨7, "q", ["A"], [("A", 4294967295)], 5, none⟩

/-- A state storing `wrapVote` under its id. -/
def wrapState : StorageState := ⟨8, [(7, wrapVote)]⟩

/-- A record exercising every field of the codec. -/
def exVote2 : Voting := ⟨1, "Pick one", ["A", "B"], [("A", 3), ("B", 0)], 100, some 200⟩

/-- A replacement payload whose options are disjoint from `exVote.options`. -/
def exPayload2 : VotingPayload := ⟨"Pick two", ["C", "D"]⟩

/-! ### Lemmas about the map and votes primitives -/

theorem mapGet_mapInsert (m : List (Nat × Voting)) (k : Nat) (v : Voting) (q : Nat) :
    mapGet (mapInsert m k v) q = if k = q then some v else mapGet m q := by
  induction m with
  | nil => simp [mapInsert, mapGet]
  | cons hd tl ih =>
    obtain ⟨k', v'⟩ := hd
    by_cases hlt : k < k'
    · simp only [mapInsert, hlt, if_pos]
      by_cases hq : k = q
      · simp [mapGet, hq]
      · simp [mapGet, hq]
    · by_cases heq : k' = k
      · subst heq
        simp only [mapInsert, hlt, if_neg, if_true, if_pos rfl]
        by_cases hq : k' = q <;> simp [mapGet, hq]
      · simp only [mapInsert, hlt, if_neg, heq, if_false]
        by_cases hq : k' = q
        · subst hq
          have : ¬ k = k' := fun h => heq h.symm
          simp [mapGet, this, ih]
        · simp [mapGet, hq, ih]

theorem mapGet_mapRemove (m : List (Nat × Voting)) (k q : Nat) :
    mapGet (mapRemove m k) q = if k = q then none else mapGet m q := by
  induction m with
  | nil => simp [mapRemove, mapGet]
  | cons hd tl ih =>
    obtain ⟨k', v'⟩ := hd
    by_cases hk : k' = k
    · subst hk
      by_cases hq : k' = q
      · subst hq
        simp [mapRemove, ih]
      · simp [mapRemove, mapGet, hq, ih]
    · simp only [mapRemove, hk, if_false, mapGet]
      by_cases hq : k' = q
      · subst hq
        have : ¬ k = k' := fun h => hk h.symm
        simp [this]
      · simp [hq, ih]

theorem hmLookup_hmInsert (m : List (String × Nat)) (k : String) (v : Nat) (q : String) :
    hmLookup (hmInsert m k v) q = if k = q then some v else hmLookup m q := by
  induction m with
  | nil => simp [hmInsert, hmLookup]
  | cons hd tl ih =>
    obtain ⟨k', v'⟩ := hd
    by_cases hk : k' = k
    · subst hk
      simp only [hmInsert, if_pos rfl]
      by_cases hq : k' = q <;> simp [hmLookup, hq]
    · simp only [hmInsert, hk, if_false, hmLookup]
      by_cases hq : k' = q
      · subst hq
        have : ¬ k = k' := fun h => hk h.symm
        simp [this]
      · simp [hq, ih]

theorem hmLookup_incrVote (m : List (String × Nat)) (k q : String) :
    hmLookup (incrVote m k) q =
      if k = q then (hmLookup m q).map (fun c => (c + 1) % U32) else hmLookup m q := by
  induction m with
  | nil => simp [incrVote, hmLookup]
  | cons hd tl ih =>
    obtain ⟨k', v'⟩ := hd
    by_cases hk : k' = k
    · subst hk
      simp only [incrVote, if_pos rfl]
      by_cases hq : k' = q <;> simp [hmLookup, hq]
    · simp only [incrVote, hk, if_false, hmLookup]
      by_cases hq : k' = q
      · subst hq
        have : ¬ k = k' := fun h => hk h.symm
        simp [this]
      · simp [hq, ih]

theorem hmLookup_buildVotes_aux (opts : List String) (m : List (String × Nat)) (q : String) :
    hmLookup (opts.foldl (fun acc o => hmInsert acc o 0) m) q =
      if q ∈ opts then some 0 else hmLookup m q := by
  induction opts generalizing m with
  | nil => simp
  | cons o rest ih =>
    simp only [List.foldl_cons, ih, hmLookup_hmInsert, List.mem_cons]
    by_cases hq : q ∈ rest
    · simp [hq]
    · by_cases ho : o = q
      · simp [hq, ho]
      · have : ¬ q = o := fun h => ho h.symm
        simp [hq, ho, this]

theorem hmLookup_buildVotes (opts : List String) (q : String) :
    hmLookup (buildVotes opts) q = if q ∈ opts then some 0 else none := by
  simpa [buildVotes] using hmLookup_buildVotes_aux opts [] q

/-! ### Codec round-trip lemmas -/

theorem mod_byte_step (n k : Nat) :
    n % 256 + 256 * (n / 256 % 256 ^ k) = n % 256 ^ (k + 1) := by
  calc n % 256 + 256 * (n / 256 % 256 ^ k)
      = n % (256 * 256 ^ k) % 256 + 256 * (n % (256 * 256 ^ k) / 256) := by
        rw [Nat.mod_mod_of_dvd n (dvd_mul_right 256 (256 ^ k)),
          Nat.mod_mul_right_div_self]
    _ = n % (256 * 256 ^ k) := Nat.mod_add_div _ _
    _ = n % 256 ^ (k + 1) := by rw [pow_succ, mul_comm (256 ^ k) 256]

theorem decFixed_encFixed (k n : Nat) (rest : List Nat) :
    decFixed k (encFixed k n ++ rest) = some (n % 256 ^ k, rest) := by
  induction k generalizing n with
  | zero => simp [encFixed, decFixed, Nat.mod_one]
  | succ k ih =>
    simp only [encFixed, decFixed, List.cons_append, List.append_eq, ih, Option.map_some']
    rw [mod_byte_step]

theorem dleb_lebAux (fuel : Nat) : ∀ (n : Nat), n ≤ fuel → ∀ (rest : List Nat),
    dleb (lebAux fuel n ++ rest) = some (n, rest) := by
  induction fuel with
  | zero =>
    intro n hn rest
    have : n = 0 := by omega
    subst this
    simp [lebAux, dleb]
  | succ fuel ih =>
    intro n hn rest
    by_cases h : n < 128
    · simp [lebAux, h, dleb]
    · have hd : n / 128 < n := Nat.div_lt_self (by omega) (by omega)
      simp only [lebAux, h, if_false, List.cons_append, dleb]
      have hb : ¬ (n % 128 + 128 < 128) := by omega
      rw [if_neg hb, ih (n / 128) (by omega) rest]
      simp only [Option.map_some']
      have hv : n % 128 + 128 - 128 + 128 * (n / 128) = n := by omega
      rw [hv]

theorem dleb_leb (n : Nat) (rest : List Nat) : dleb (leb n ++ rest) = some (n, rest) :=
  dleb_lebAux n n le_rfl rest

theorem decChars_append (cs : List Char) (rest : List Nat) :
    decChars cs.length (cs.map Char.toNat ++ rest) = some (cs, rest) := by
  induction cs with
  | nil => simp [decChars]
  | cons c cs ih => simp [decChars, ih]

theorem decText_encText (s : String) (rest : List Nat) :
    decText (encText s ++ rest) = some (s, rest) := by
  obtain ⟨data⟩ := s
  simp only [encText, decText, List.append_assoc, dleb_leb]
  simp [decChars_append]

theorem decTexts_encTexts (xs : List String) (rest : List Nat) :
    decTexts xs.length (encTexts xs ++ rest) = some (xs, rest) := by
  induction xs with
  | nil => simp [encTexts, decTexts]
  | cons x xs ih =>
    simp only [List.length_cons, encTexts, decTexts, List.append_assoc,
      decText_encText, ih, Option.map_some']

theorem decTextList_encTextList (xs : List String) (rest : List Nat) :
    decTextList (encTextList xs ++ rest) = some (xs, rest) := by
  simp only [encTextList, decTextList, List.append_assoc, dleb_leb, decTexts_encTexts]

theorem decPairs_encPairs (l : List (String × Nat)) (rest : List Nat)
    (h : ∀ p ∈ l, p.2 < U32) :
    decPairs l.length (encPairs l ++ rest) = some (l, rest) := by
  induction l with
  | nil => simp [encPairs, decPairs]
  | cons p l ih =>
    obtain ⟨key, c⟩ := p
    have hc : c < 256 ^ 4 := by
      have := h (key, c) (by simp)
      simpa [U32] using this
    have hl : ∀ q ∈ l, q.2 < U32 := fun q hq => h q (by simp [hq])
    simp only [List.length_cons, encPairs, decPairs, List.append_assoc,
      decText_encText, decFixed_encFixed, ih hl, Option.map_some']
    rw [Nat.mod_eq_of_lt hc]

theorem decPairList_encPairList (l : List (String × Nat)) (rest : List Nat)
    (h : ∀ p ∈ l, p.2 < U32) :
    decPairList (encPairList l ++ rest) = some (l, rest) := by
  simp only [encPairList, decPairList, List.append_assoc, dleb_leb, decPairs_encPairs l rest h]

theorem decOptNat64_encOptNat64 (o : Option Nat) (rest : List Nat)
    (h : ∀ t ∈ o, t < U64) :
    decOptNat64 (encOptNat64 o ++ rest) = some (o, rest) := by
  cases o with
  | none => simp [encOptNat64, decOptNat64]
  | some t =>
    have ht : t < 256 ^ 8 := by
      have := h t rfl
      simpa [U64] using this
    have h0 : ¬ (1 : Nat) = 0 := by omega
    have h8 : (256 : Nat) ^ 8 = 18446744073709551616 := by norm_num
    have ht' : t < 18446744073709551616 := by omega
    simp [encOptNat64, decOptNat64, h0, decFixed_encFixed]
    omega

/-! ### Claim theorems -/

/-- C2: for every well-formed record `r` (numeric fields in their Rust ranges)
whose encoding has at most 1024 bytes, decoding the encoding yields `r` back:
`from_bytes (to_bytes r) = r` for the `Voting` codec. -/
theorem voting_codec_roundtrip (v : Voting) (hwf : v.WF)
    (hsize : v.to_bytes.length ≤ 1024) :
    Voting.from_bytes v.to_bytes = some v := by
  obtain ⟨id, q, opts, votes, ca, ua⟩ := v
  obtain ⟨hid, hca, hua, hvt⟩ := hwf
  have h8 : (256 : Nat) ^ 8 = 2 ^ 64 := by norm_num
  have hid' : id % 256 ^ 8 = id := Nat.mod_eq_of_lt (by rw [h8]; simpa [U64] using hid)
  have hca' : ca % 256 ^ 8 = ca := Nat.mod_eq_of_lt (by rw [h8]; simpa [U64] using hca)
  have hpairs : ∀ rest, decPairList (encPairList votes ++ rest) = some (votes, rest) :=
    fun rest => decPairList_encPairList votes rest (by simpa using hvt)
  have hopt : ∀ rest, decOptNat64 (encOptNat64 ua ++ rest) = some (ua, rest) :=
    fun rest => decOptNat64_encOptNat64 ua rest (by simpa using hua)
  simp only [Voting.to_bytes, Voting.from_bytes]
  rw [show encOptNat64 ua = encOptNat64 ua ++ ([] : List Nat) from (List.append_nil _).symm]
  simp only [decFixed_encFixed, Option.some_bind, decText_encText,
    decTextList_encTextList, hpairs, hopt, hid', hca']
  simp

/-- C9: storing a record with `do_insert` and immediately looking up its id
with `get_vote` returns exactly that record; `get_vote` returns the stored
record when the key is present and a NotFound error when it is absent, and it
mutates nothing. -/
theorem get_vote_spec (s : StorageState) (id1 id2 : Nat) (v w : Voting)
    (h1 : mapGet s.storage id1 = some v) (h2 : mapGet s.storage id2 = none) :
    (get_vote w.id (do_insert w s)).1 = .ok w ∧
    (get_vote id1 s).1 = .ok v ∧
    (get_vote id2 s).1 =
      .error (.NotFound ("a vote with id=" ++ toString id2 ++ " not found")) ∧
    (get_vote id1 s).2 = s ∧ (get_vote id2 s).2 = s ∧
    (get_vote w.id (do_insert w s)).2 = do_insert w s := by
  refine ⟨?_, ?_, ?_, ?_, ?_, ?_⟩ <;>
    simp [get_vote, do_insert, mapGet_mapInsert, h1, h2]

/-- C3: casting a vote for an option that is not among the stored record's
options fails with a NotFound error and leaves the whole state, hence the
stored record, unchanged. -/
theorem cast_vote_invalid_option (now id : Nat) (opt : String) (s : StorageState)
    (v : Voting) (hget : mapGet s.storage id = some v) (hopt : opt ∉ v.options) :
    (cast_vote now id opt s).1 = .error (.NotFound ("The option " ++ squote ++ opt
      ++ squote ++ " is not found for this vote.")) ∧
    (cast_vote now id opt s).2 = s := by
  constructor <;> simp [cast_vote, hget, hopt]

/-- C8: deleting a present id returns the last stored record; afterwards both
a lookup and a second delete of that id fail with a NotFound error. -/
theorem delete_vote_spec (id : Nat) (s : StorageState) (v : Voting)
    (hget : mapGet s.storage id = some v) :
    (delete_vote id s).1 = .ok v ∧
    (get_vote id (delete_vote id s).2).1 =
      .error (.NotFound ("a vote with id=" ++ toString id ++ " not found")) ∧
    (delete_vote id (delete_vote id s).2).1 =
      .error (.NotFound ("couldn" ++ squote ++ "t delete a vote with id="
        ++ toString id ++ ". vote not found.")) := by
  have hrem : mapGet (mapRemove s.storage id) id = none := by
    simp [mapGet_mapRemove]
  refine ⟨?_, ?_, ?_⟩ <;> simp [delete_vote, get_vote, hget, hrem]

/-- C10: `create_vote` never returns `None`: for every payload (validated or
not) it returns `Some` of the freshly built record and stores that record
under its id. -/
theorem create_vote_total (now : Nat) (p : VotingPayload) (s : StorageState) :
    (create_vote now p s).1 =
      some ⟨s.counter, p.question, p.options, buildVotes p.options, now, none⟩ ∧
    mapGet (create_vote now p s).2.storage s.counter =
      some ⟨s.counter, p.question, p.options, buildVotes p.options, now, none⟩ := by
  constructor <;> simp [create_vote, do_insert, mapGet_mapInsert]

/-- C4: updating a stored record with a payload whose options are disjoint
from the current ones fully replaces it: the stored record's votes map is
`buildVotes payload.options`, which binds a label `l2` to 0 exactly when `l2`
is a payload option and binds no old label `l` (counts are discarded, not
merged); the question becomes the payload's question. -/
theorem update_vote_full_replace (now id : Nat) (p : VotingPayload)
    (s : StorageState) (v : Voting) (l l2 : String)
    (hget : mapGet s.storage id = some v)
    (hdisj : ∀ x ∈ v.options, x ∉ p.options) (hl : l ∈ v.options) :
    (update_vote now id p s).1 = .ok { v with question := p.question, options := p.options, votes := buildVotes p.options, updated_at := some now } ∧
    mapGet (update_vote now id p s).2.storage v.id =
      some { v with question := p.question, options := p.options, votes := buildVotes p.options, updated_at := some now } ∧
    hmLookup (buildVotes p.options) l2 = (if l2 ∈ p.options then some 0 else none) ∧
    hmLookup (buildVotes p.options) l = none := by
  refine ⟨?_, ?_, ?_, ?_⟩
  · simp [update_vote, hget]
  · simp [update_vote, hget, do_insert, mapGet_mapInsert]
  · exact hmLookup_buildVotes p.options l2
  · rw [hmLookup_buildVotes]
    simp [hdisj l hl]

/-- C6: a successful `update_vote` and a successful `cast_vote` both leave the
record's `id` and `created_at` unchanged and set `updated_at` to the current
time. -/
theorem mutators_preserve_identity (now id : Nat) (p : VotingPayload)
    (opt : String) (s : StorageState) (v : Voting)
    (hget : mapGet s.storage id = some v) (hopt : opt ∈ v.options) :
    okField (update_vote now id p s) Voting.id = some v.id ∧
    okField (update_vote now id p s) Voting.created_at = some v.created_at ∧
    okField (update_vote now id p s) Voting.updated_at = some (some now) ∧
    okField (cast_vote now id opt s) Voting.id = some v.id ∧
    okField (cast_vote now id opt s) Voting.created_at = some v.created_at ∧
    okField (cast_vote now id opt s) Voting.updated_at = some (some now) := by
  refine ⟨?_, ?_, ?_, ?_, ?_, ?_⟩ <;>
    simp [okField, update_vote, cast_vote, hget, hopt]

/-- C5 is false as stated: in a state whose stored record counts 4294967295
votes for option "A" (the largest `u32`), casting a vote for "A" wraps the
count to 0 rather than incrementing it by exactly 1. -/
theorem cast_vote_increment_cex :
    hmLookup wrapVote.votes "A" = some 4294967295 ∧
    okField (cast_vote 9 7 "A" wrapState) (fun v => hmLookup v.votes "A") =
      some (some 0) ∧
    (0 : Nat) ≠ 4294967295 + 1 := by
  refine ⟨by decide, by decide, by decide⟩

/-- C5 (amended): casting a vote for an option contained in the stored
record's options list succeeds, sets that option's count to
`(old + 1) % 2 ^ 32` — an increment by exactly 1 except when the `u32` count
is `2 ^ 32 - 1`, where it wraps to 0 — leaves every other option's count
unchanged, sets `updated_at` to the current time, and stores the result. -/
theorem cast_vote_valid_option (now id : Nat) (opt q : String) (s : StorageState)
    (v : Voting) (hget : mapGet s.storage id = some v) (hopt : opt ∈ v.options)
    (hq : q ≠ opt) :
    (cast_vote now id opt s).1 =
      .ok { v with votes := incrVote v.votes opt, updated_at := some now } ∧
    hmLookup (incrVote v.votes opt) opt =
      (hmLookup v.votes opt).map (fun c => (c + 1) % U32) ∧
    hmLookup (incrVote v.votes opt) q = hmLookup v.votes q ∧
    mapGet (cast_vote now id opt s).2.storage v.id =
      some { v with votes := incrVote v.votes opt, updated_at := some now } := by
  refine ⟨?_, ?_, ?_, ?_⟩
  · simp [cast_vote, hget, hopt]
  · simp [hmLookup_incrVote]
  · rw [hmLookup_incrVote, if_neg (fun h => hq h.symm)]
  · simp [cast_vote, hget, hopt, do_insert, mapGet_mapInsert]

theorem createSeq_ids_aux (inputs : List (Nat × VotingPayload)) (s : StorageState)
    (h : s.counter < U64) :
    (createSeq inputs s).1 =
      (List.range inputs.length).map (fun i => (s.counter + i) % U64) ∧
    (createSeq inputs s).2.counter = (s.counter + inputs.length) % U64 := by
  induction inputs generalizing s with
  | nil => simp [createSeq, Nat.mod_eq_of_lt h]
  | cons hd rest ih =>
    obtain ⟨now, p⟩ := hd
    have hU : 0 < U64 := by norm_num [U64]
    have h1 : ((create_vote now p s).2).counter = (s.counter + 1) % U64 := by
      simp [create_vote, do_insert]
    have h2 : ((create_vote now p s).2).counter < U64 := by
      rw [h1]; exact Nat.mod_lt _ hU
    obtain ⟨ihids, ihctr⟩ := ih (create_vote now p s).2 h2
    have hfst : (create_vote now p s).1.elim [] (fun v => [v.id]) = [s.counter] := by
      simp [create_vote]
    constructor
    · simp only [createSeq, hfst, ihids, h1, List.length_cons]
      rw [List.range_succ_eq_map, List.map_cons, List.map_map, List.singleton_append]
      congr 1
      · rw [Nat.add_zero, Nat.mod_eq_of_lt h]
      · apply List.map_congr_left
        intro i _
        simp only [Function.comp]
        rw [Nat.mod_add_mod]
        congr 1
        omega
    · simp only [createSeq, List.length_cons]
      rw [ihctr, h1, Nat.mod_add_mod]
      congr 1
      omega

/-- C1 is false as stated: on a fresh canister (counter 0) the first
`create_vote` call allocates id 0, not 1 — `Cell::set` returns the previous
counter value, and the handler uses that returned value as the record id. -/
theorem create_vote_first_id_cex :
    (createSeq [(100, exPayload)] initState).1 = [0] ∧ (0 : Nat) ≠ 1 := by
  refine ⟨by decide, by decide⟩

/-- C1 (amended): for every sequence of `create_vote` calls starting from a
counter initialized to 0 (at most `2 ^ 64` calls, the `u64` range), the
assigned identifiers are exactly `0, 1, 2, ...` in call order — strictly
increasing and unique, but starting from 0, the previous counter value
returned by `set`, while `current + 1` is written back to the cell. -/
theorem create_vote_ids (inputs : List (Nat × VotingPayload))
    (h : inputs.length ≤ U64) :
    (createSeq inputs initState).1 = List.range inputs.length ∧
    List.Pairwise (· < ·) (createSeq inputs initState).1 := by
  have h0 : (initState.counter : Nat) < U64 := by norm_num [initState, U64]
  obtain ⟨hids, -⟩ := createSeq_ids_aux inputs initState h0
  have hrange : (createSeq inputs initState).1 = List.range inputs.length := by
    rw [hids]
    have : ∀ i ∈ List.range inputs.length,
        (initState.counter + i) % U64 = i := by
      intro i hi
      have hilt : i < inputs.length := List.mem_range.mp hi
      have : i < U64 := lt_of_lt_of_le hilt h
      simp [initState, Nat.mod_eq_of_lt this]
    rw [List.map_congr_left this]
    simp
  exact ⟨hrange, hrange ▸ List.pairwise_lt_range _⟩

theorem reachable_keys_inv (s : StorageState) (h : Reachable s) : KeysInv s := by
  induction h with
  | init =>
    intro k v hget
    simp [initState, mapGet] at hget
  | create now p hs ih =>
    intro k v hget lbl
    rename_i s'
    simp only [create_vote, do_insert] at hget
    rw [mapGet_mapInsert] at hget
    by_cases hk : s'.counter = k
    · rw [if_pos hk] at hget
      cases hget
      simp only [hmLookup_buildVotes]
      by_cases hlb : lbl ∈ p.options <;> simp [hlb]
    · rw [if_neg hk] at hget
      exact ih k v hget lbl
  | update now id p hs ih =>
    intro k v hget lbl
    rename_i s'
    cases hm : mapGet s'.storage id with
    | none =>
      simp only [update_vote, hm] at hget
      exact ih k v hget lbl
    | some vote =>
      simp only [update_vote, hm, do_insert] at hget
      rw [mapGet_mapInsert] at hget
      by_cases hk : vote.id = k
      · rw [if_pos hk] at hget
        cases hget
        simp only [hmLookup_buildVotes]
        by_cases hlb : lbl ∈ p.options <;> simp [hlb]
      · rw [if_neg hk] at hget
        exact ih k v hget lbl
  | cast now id opt hs ih =>
    intro k v hget lbl
    rename_i s'
    cases hm : mapGet s'.storage id with
    | none =>
      simp only [cast_vote, hm] at hget
      exact ih k v hget lbl
    | some vote =>
      by_cases hctn : vote.options.contains opt
      · simp only [cast_vote, hm, hctn, if_pos, do_insert] at hget
        rw [mapGet_mapInsert] at hget
        by_cases hk : vote.id = k
        · rw [if_pos hk] at hget
          cases hget
          simp only [hmLookup_incrVote]
          by_cases hol : opt = lbl
          · subst hol
            simp only [eq_self_iff_true, if_true, Option.isSome_map']
            exact ih id vote hm opt
          · rw [if_neg hol]
            exact ih id vote hm lbl
        · rw [if_neg hk] at hget
          exact ih k v hget lbl
      · simp only [cast_vote, hm, hctn, if_neg] at hget
        exact ih k v hget lbl
  | delete id hs ih =>
    intro k v hget lbl
    rename_i s'
    cases hm : mapGet s'.storage id with
    | none =>
      simp only [delete_vote, hm] at hget
      exact ih k v hget lbl
    | some vote =>
      simp only [delete_vote, hm] at hget
      rw [mapGet_mapRemove] at hget
      by_cases hk : id = k
      · rw [if_pos hk] at hget
        cases hget
      · rw [if_neg hk] at hget
        exact ih k v hget lbl

/-- C7: in every state reachable from the fresh canister by create / update /
cast / delete, the key set of every stored record's votes map is exactly the
set of labels in its options list; moreover `create_vote` and a successful
`update_vote` initialize the votes map to `buildVotes payload.options`, which
binds each option label to 0 and nothing else, and a created record has
`updated_at = none`. -/
theorem votes_keys_exact (s s2 : StorageState) (hs : Reachable s) (k : Nat)
    (v : Voting) (hget : mapGet s.storage k = some v) (lbl lbl2 : String)
    (now id2 : Nat) (p : VotingPayload) (v2 : Voting)
    (hget2 : mapGet s2.storage id2 = some v2) :
    ((hmLookup v.votes lbl).isSome = true ↔ lbl ∈ v.options) ∧
    (create_vote now p s2).1.map Voting.votes = some (buildVotes p.options) ∧
    (create_vote now p s2).1.map Voting.updated_at = some none ∧
    okField (update_vote now id2 p s2) Voting.votes = some (buildVotes p.options) ∧
    hmLookup (buildVotes p.options) lbl2 = (if lbl2 ∈ p.options then some 0 else none) := by
  refine ⟨reachable_keys_inv s hs k v hget lbl, ?_, ?_, ?_,
    hmLookup_buildVotes p.options lbl2⟩
  · simp [create_vote]
  · simp [create_vote]
  · simp [okField, update_vote, hget2]

theorem ex_reachable : Reachable exState := by
  have h := Reachable.create 100 exPayload Reachable.init
  have he : (create_vote 100 exPayload initState).2 = exState := by decide
  rwa [he] at h

/-! ### Witnesses: the theorems above applied at concrete inputs -/

theorem votes_keys_exact_witness :
    ((hmLookup exVote.votes "A").isSome = true ↔ "A" ∈ exVote.options) ∧
    (create_vote 100 exPayload exState).1.map Voting.votes = some (buildVotes exPayload.options) ∧
    (create_vote 100 exPayload exState).1.map Voting.updated_at = some none ∧
    okField (update_vote 100 0 exPayload exState) Voting.votes = some (buildVotes exPayload.options) ∧
    hmLookup (buildVotes exPayload.options) "B" = (if "B" ∈ exPayload.options then some 0 else none) :=
  votes_keys_exact exState exState ex_reachable 0 exVote (by decide) "A" "B"
    100 0 exPayload exVote (by decide)

theorem create_vote_ids_witness :
    (createSeq [(5, exPayload), (6, exPayload2), (7, exPayload)] initState).1 =
      List.range 3 ∧
    List.Pairwise (· < ·)
      (createSeq [(5, exPayload), (6, exPayload2), (7, exPayload)] initState).1 :=
  create_vote_ids [(5, exPayload), (6, exPayload2), (7, exPayload)]
    (by norm_num [U64])

theorem voting_codec_roundtrip_witness :
    Voting.from_bytes exVote2.to_bytes = some exVote2 :=
  voting_codec_roundtrip exVote2
    (by
      refine ⟨by norm_num [exVote2, U64], by norm_num [exVote2, U64], ?_, ?_⟩
      · intro t ht
        simp [exVote2] at ht
        subst ht
        norm_num [U64]
      · intro q hq
        simp [exVote2] at hq
        rcases hq with h | h <;> norm_num [h, U32])
    (by decide)

theorem get_vote_spec_witness :
    (get_vote exVote.id (do_insert exVote exState)).1 = .ok exVote ∧
    (get_vote 0 exState).1 = .ok exVote ∧
    (get_vote 5 exState).1 =
      .error (.NotFound ("a vote with id=" ++ toString 5 ++ " not found")) ∧
    (get_vote 0 exState).2 = exState ∧ (get_vote 5 exState).2 = exState ∧
    (get_vote exVote.id (do_insert exVote exState)).2 = do_insert exVote exState :=
  get_vote_spec exState 0 5 exVote exVote (by decide) (by decide)

theorem cast_vote_invalid_option_witness :
    (cast_vote 55 0 "C" exState).1 = .error (.NotFound ("The option " ++ squote
      ++ "C" ++ squote ++ " is not found for this vote.")) ∧
    (cast_vote 55 0 "C" exState).2 = exState :=
  cast_vote_invalid_option 55 0 "C" exState exVote (by decide) (by decide)

theorem delete_vote_spec_witness :
    (delete_vote 0 exState).1 = .ok exVote ∧
    (get_vote 0 (delete_vote 0 exState).2).1 =
      .error (.NotFound ("a vote with id=" ++ toString 0 ++ " not found")) ∧
    (delete_vote 0 (delete_vote 0 exState).2).1 =
      .error (.NotFound ("couldn" ++ squote ++ "t delete a vote with id="
        ++ toString 0 ++ ". vote not found.")) :=
  delete_vote_spec 0 exState exVote (by decide)

theorem update_vote_full_replace_witness :
    (update_vote 200 0 exPayload2 exState).1 = .ok { exVote with question := exPayload2.question, options := exPayload2.options, votes := buildVotes exPayload2.options, updated_at := some 200 } ∧
    mapGet (update_vote 200 0 exPayload2 exState).2.storage exVote.id =
      some { exVote with question := exPayload2.question, options := exPayload2.options, votes := buildVotes exPayload2.options, updated_at := some 200 } ∧
    hmLookup (buildVotes exPayload2.options) "C" =
      (if "C" ∈ exPayload2.options then some 0 else none) ∧
    hmLookup (buildVotes exPayload2.options) "A" = none :=
  update_vote_full_replace 200 0 exPayload2 exState exVote "A" "C"
    (by decide) (by decide) (by decide)

theorem mutators_preserve_identity_witness :
    okField (update_vote 300 0 exPayload2 exState) Voting.id = some exVote.id ∧
    okField (update_vote 300 0 exPayload2 exState) Voting.created_at = some exVote.created_at ∧
    okField (update_vote 300 0 exPayload2 exState) Voting.updated_at = some (some 300) ∧
    okField (cast_vote 300 0 "A" exState) Voting.id = some exVote.id ∧
    okField (cast_vote 300 0 "A" exState) Voting.created_at = some exVote.created_at ∧
    okField (cast_vote 300 0 "A" exState) Voting.updated_at = some (some 300) :=
  mutators_preserve_identity 300 0 exPayload2 "A" exState exVote (by decide) (by decide)

theorem cast_vote_valid_option_witness :
    (cast_vote 200 0 "A" exState).1 =
      .ok { exVote with votes := incrVote exVote.votes "A", updated_at := some 200 } ∧
    hmLookup (incrVote exVote.votes "A") "A" =
      (hmLookup exVote.votes "A").map (fun c => (c + 1) % U32) ∧
    hmLookup (incrVote exVote.votes "A") "B" = hmLookup exVote.votes "B" ∧
    mapGet (cast_vote 200 0 "A" exState).2.storage exVote.id =
      some { exVote with votes := incrVote exVote.votes "A", updated_at := some 200 } :=
  cast_vote_valid_option 200 0 "A" "B" exState exVote (by decide) (by decide) (by decide)
